import Mathlib

/-!
Formal model of the data-generation and aggregation pipeline of `src/app.py`
(Sales Trend Explorer).

The pipeline consists of `load_sample_data` (lines 37-81), which seeds numpy's
global pseudorandom generator and builds 5000 synthetic order records, and four
pandas group-by aggregations (lines 85, 96, 107, 192) together with the filter
of `main` (lines 140-144).

Modelling conventions:
* Real-valued columns (`Sales`, `Profit`) are modelled by `ℚ`.
* `pd.date_range('2021-01-01', '2023-12-31', freq='D')` is a list of 1095
  consecutive days (2021-2023 contain no leap year); a date is modelled by its
  index `0 ≤ d < 1095` in that range, and the derived `Year` / `Month` /
  `Year-Month` columns (lines 77-79) by arithmetic on the index.
* numpy's seeded generator is modelled by an abstract deterministic state
  machine `RNG`: each sampling call consumes the state and returns the drawn
  value together with the next state.  The structure carries exactly the
  guarantees numpy documents: `np.random.choice` / `np.random.randint` return
  an index below the bound, and `np.random.uniform a b` returns a value in
  `[a, b]`.  `np.random.normal` is unconstrained (its support is all reals).
* pandas `groupby(k).sum()` (with its default `sort=True`) is modelled by
  listing the distinct keys in ascending order and pairing each with the sum
  of `Sales` over the matching rows.  The ascending order on string keys is
  lexicographic comparison of code points, exactly Python's `str` order,
  implemented here by the executable `strLt`.
-/

set_option maxRecDepth 8000

/-- One synthetic order record, i.e. one row of the DataFrame built by
`load_sample_data` (columns of the dict literal at lines 65-73 of
`src/app.py`).  `order_date` is the index of the drawn date in the
1095-day range. -/
structure Record where
  order_date : Nat
  category : String
  sub_category : String
  region : String
  sales : ℚ
  profit : ℚ
  quantity : Nat
deriving DecidableEq, Repr

/-- Line 44: `categories = ['Technology', 'Furniture', 'Office Supplies']`. -/
def categories : List String := ["Technology", "Furniture", "Office Supplies"]

/-- Lines 45-49: the category → sub-category dictionary. -/
def subcategories (c : String) : List String :=
  if c = "Technology" then ["Phones", "Computers", "Accessories"]
  else if c = "Furniture" then ["Chairs", "Tables", "Storage"]
  else if c = "Office Supplies" then ["Paper", "Binders", "Art"]
  else []

/-- Line 50: `regions = ['Central', 'East', 'South', 'West']`. -/
def regions : List String := ["Central", "East", "South", "West"]

/-- Line 60: `base_sales = {'Technology': 1000, 'Furniture': 800,
'Office Supplies': 300}[category]`. -/
def base_sales (c : String) : ℚ :=
  if c = "Technology" then 1000
  else if c = "Furniture" then 800
  else if c = "Office Supplies" then 300
  else 0

/-- Line 43: the number of days in `pd.date_range('2021-01-01', '2023-12-31')`;
2021, 2022 and 2023 each have 365 days. -/
def numDates : Nat := 1095

/-- Day counts of the months of a non-leap year. -/
def monthLengths : List Nat := [31, 28, 31, 30, 31, 30, 31, 31, 30, 31, 30, 31]

/-- Walk the month lengths to convert a day-of-year offset to a 1-based month. -/
def monthOfAux : Nat → List Nat → Nat → Nat
  | _, [], m => m
  | d, len :: rest, m => if d < len then m else monthOfAux (d - len) rest (m + 1)

/-- Line 78: the `Month` column derived from a date index (1..12). -/
def monthOf (d : Nat) : Nat := monthOfAux (d % 365) monthLengths 1

/-- Line 77: the `Year` column derived from a date index (2021..2023). -/
def yearOf (d : Nat) : Nat := 2021 + d / 365

/-- Line 79: the `Year-Month` column (`dt.to_period('M')`) as a (year, month)
pair; the chronological order of monthly periods is the lexicographic order
on these pairs. -/
def ymOf (d : Nat) : Nat × Nat := (yearOf d, monthOf d)

/-- An abstract deterministic pseudorandom generator: the model of numpy's
global generator after `np.random.seed(seed)`.  Every sampling call is a pure
function of the current state and also returns the successor state; the two
proof fields record the range guarantees numpy documents for
`choice`/`randint` index draws and for `uniform`. -/
structure RNG (σ : Type) where
  seedInit : Nat → σ
  randBelow : σ → Nat → Nat × σ
  normal : σ → ℚ → ℚ → ℚ × σ
  uniform : σ → ℚ → ℚ → ℚ × σ
  randBelow_lt : ∀ st n, 0 < n → (randBelow st n).1 < n
  uniform_mem : ∀ st a b, a ≤ b → a ≤ (uniform st a b).1 ∧ (uniform st a b).1 ≤ b

/-- One iteration of the loop at lines 53-73 of `src/app.py`: draw a date, a
category, a sub-category of that category, a region, a normal sales value with
category-specific mean (std = 30% of the mean), a uniform profit factor in
[0.1, 0.3] and a quantity in [1, 9], and assemble the record.  Note that
`Sales` is clamped (`max(sales, 50)`, line 70) but `profit` was computed from
the unclamped draw (line 62). -/
def genRecord {σ : Type} (R : RNG σ) (st : σ) : Record × σ :=
  let d := R.randBelow st numDates
  let c := R.randBelow d.2 categories.length
  let category := categories.getD c.1 ""
  let sc := R.randBelow c.2 (subcategories category).length
  let subcategory := (subcategories category).getD sc.1 ""
  let rg := R.randBelow sc.2 regions.length
  let region := regions.getD rg.1 ""
  let bs := base_sales category
  let s := R.normal rg.2 bs (bs * (3/10))
  let u := R.uniform s.2 (1/10) (3/10)
  let q := R.randBelow u.2 9
  ({ order_date := d.1
     category := category
     sub_category := subcategory
     region := region
     sales := max s.1 50
     profit := s.1 * u.1
     quantity := 1 + q.1 }, q.2)

/-- The generation loop (`for _ in range(5000)`), producing records in
iteration order while threading the generator state. -/
def genList {σ : Type} (R : RNG σ) : Nat → σ → List Record
  | 0, _ => []
  | n + 1, st =>
    let p := genRecord R st
    p.1 :: genList R n p.2

/-- Lines 37-81: `load_sample_data`, parametrised by the pseudorandom
generator and the seed (the source fixes the seed to 42 at line 40). -/
def load_sample_data {σ : Type} (R : RNG σ) (seed : Nat) : List Record :=
  genList R 5000 (R.seedInit seed)

/-- Lines 140-144 of `main`: keep the records whose year, category and region
belong to the three selected lists (`isin` conjunction). -/
def filterView (ys : List Nat) (cs rs : List String) (l : List Record) : List Record :=
  l.filter fun r =>
    ys.contains (yearOf r.order_date) && cs.contains r.category && rs.contains r.region

/-- Executable lexicographic comparison of character lists by code point:
Python's `str` order, which pandas uses when sorting group keys. -/
def charsLtB : List Char → List Char → Bool
  | [], [] => false
  | [], _ :: _ => true
  | _ :: _, [] => false
  | a :: as, b :: bs =>
    if a.toNat < b.toNat then true
    else if b.toNat < a.toNat then false
    else charsLtB as bs

/-- Python's lexicographic order on strings (by Unicode code point). -/
def strLt (s t : String) : Prop := charsLtB s.data t.data = true

instance strLt.instDecidable : DecidableRel strLt := fun s t =>
  inferInstanceAs (Decidable (charsLtB s.data t.data = true))

/-- The facts a strict order must satisfy for `sortDedup` to behave like
pandas' sorted group-key listing. -/
structure LtLaws {κ : Type} (lt : κ → κ → Prop) : Prop where
  irrefl : ∀ a, ¬ lt a a
  trans : ∀ {a b c}, lt a b → lt b c → lt a c
  total : ∀ {a b}, ¬ lt a b → a ≠ b → lt b a

/-- Lexicographic order on pairs, used for the `['Year-Month', 'Category']`
group key of `create_line_plot`. -/
def pairLt {α β : Type} (la : α → α → Prop) (lb : β → β → Prop) (p q : α × β) : Prop :=
  la p.1 q.1 ∨ (p.1 = q.1 ∧ lb p.2 q.2)

instance pairLt.instDecidable {α β : Type} [DecidableEq α]
    (la : α → α → Prop) (lb : β → β → Prop) [DecidableRel la] [DecidableRel lb] :
    DecidableRel (pairLt la lb) := fun p q =>
  inferInstanceAs (Decidable (la p.1 q.1 ∨ (p.1 = q.1 ∧ lb p.2 q.2)))

/-- Insert a key into a strictly ascending list of keys, dropping it if it is
already present. -/
def insortKey {κ : Type} [DecidableEq κ] (lt : κ → κ → Prop) [DecidableRel lt]
    (x : κ) : List κ → List κ
  | [] => [x]
  | y :: l =>
    if lt x y then x :: y :: l
    else if x = y then y :: l
    else y :: insortKey lt x l

/-- The distinct elements of a list in ascending order: the index of a pandas
`groupby(key).sum()` result (default `sort=True`). -/
def sortDedup {κ : Type} [DecidableEq κ] (lt : κ → κ → Prop) [DecidableRel lt]
    (l : List κ) : List κ :=
  l.foldl (fun acc x => insortKey lt x acc) []

/-- Sum of the `Sales` column, i.e. `df['Sales'].sum()`. -/
def sumSales (l : List Record) : ℚ := (l.map Record.sales).sum

/-- Model of `df.groupby(key)['Sales'].sum()`: the distinct key values in
ascending order, each paired with the summed sales of its rows. -/
def groupSum {κ : Type} [DecidableEq κ] (lt : κ → κ → Prop) [DecidableRel lt]
    (key : Record → κ) (l : List Record) : List (κ × ℚ) :=
  (sortDedup lt (l.map key)).map fun k =>
    (k, sumSales (l.filter fun r => decide (key r = k)))

/-- Line 96 (`create_bar_chart`):
`df.groupby('Category')['Sales'].sum()`. -/
def category_totals (l : List Record) : List (String × ℚ) :=
  groupSum strLt Record.category l

/-- The `['Year-Month', 'Category']` group key of line 85. -/
def mkeyMonthly (r : Record) : (Nat × Nat) × String := (ymOf r.order_date, r.category)

/-- Line 85 (`create_line_plot`):
`df.groupby(['Year-Month', 'Category'])['Sales'].sum()`, rows in ascending
lexicographic order of the (Year-Month, Category) key. -/
def monthly_category_sales (l : List Record) : List (((Nat × Nat) × String) × ℚ) :=
  groupSum (pairLt (pairLt (· < ·) (· < ·)) strLt) mkeyMonthly l

/-- Stable ascending insertion by summed sales: a new element moves left past
strictly greater values only, so elements with equal values keep their
relative order.  This matches the sort numpy actually performs for
`sort_values` on these at-most-nine-element series (introsort delegates to
insertion sort below 16 elements). -/
def insortVal (x : String × ℚ) : List (String × ℚ) → List (String × ℚ)
  | [] => [x]
  | y :: l => if x.2 < y.2 then x :: y :: l else y :: insortVal x l

/-- Stable ascending sort by summed sales. -/
def sortByVal (l : List (String × ℚ)) : List (String × ℚ) :=
  l.foldl (fun acc x => insortVal x acc) []

/-- Line 192 (`main`):
`df.groupby('Sub-Category')['Sales'].sum().sort_values(ascending=False).head(n)`.
pandas computes a descending sort as the reversal of an ascending stable
argsort (`nargsort` reverses the ascending indexer), applied to the
alphabetically ordered group-by result. -/
def top_subcategories (l : List Record) (n : Nat) : List (String × ℚ) :=
  ((sortByVal (groupSum strLt Record.sub_category l)).reverse).take n

/-- Line 107 (`create_heatmap`):
`df.groupby(['Region', 'Category'])['Sales'].sum().unstack(fill_value=0)`.
Rows are the regions present in `l` (ascending), columns the categories
present in `l` (ascending), and a cell holds the summed sales of the matching
rows — 0 when the combination has no row (`fill_value=0`). -/
def region_category_matrix (l : List Record) : List (String × List (String × ℚ)) :=
  (sortDedup strLt (l.map Record.region)).map fun rg =>
    (rg, (sortDedup strLt (l.map Record.category)).map fun c =>
      (c, sumSales (l.filter fun r => decide (r.region = rg) && decide (r.category = c))))

lemma charToNat_inj {a b : Char} (h : a.toNat = b.toNat) : a = b := by
  cases a with
  | mk av ap =>
    cases b with
    | mk bv bp =>
      have hv : av = bv := UInt32.ext h
      subst hv
      rfl

lemma charsLtB_irrefl : ∀ l, charsLtB l l = false := by
  intro l
  induction l with
  | nil => rfl
  | cons a as ih => simp [charsLtB, ih]

lemma charsLtB_trans :
    ∀ l1 l2 l3, charsLtB l1 l2 = true → charsLtB l2 l3 = true → charsLtB l1 l3 = true := by
  intro l1
  induction l1 with
  | nil =>
    intro l2 l3 h12 h23
    cases l3 with
    | nil =>
      cases l2 with
      | nil => exact h12
      | cons b bs => simp [charsLtB] at h23
    | cons c cs => rfl
  | cons a as ih =>
    intro l2 l3 h12 h23
    cases l2 with
    | nil => simp [charsLtB] at h12
    | cons b bs =>
      cases l3 with
      | nil => simp [charsLtB] at h23
      | cons c cs =>
        rcases Nat.lt_trichotomy a.toNat b.toNat with hab | hab | hab
        · rcases Nat.lt_trichotomy b.toNat c.toNat with hbc | hbc | hbc
          · have hac : a.toNat < c.toNat := hab.trans hbc
            simp [charsLtB, hac]
          · have hac : a.toNat < c.toNat := by omega
            simp [charsLtB, hac]
          · have h1 : ¬ b.toNat < c.toNat := by omega
            simp [charsLtB, h1, hbc] at h23
        · rcases Nat.lt_trichotomy b.toNat c.toNat with hbc | hbc | hbc
          · have hac : a.toNat < c.toNat := by omega
            simp [charsLtB, hac]
          · have h1 : ¬ a.toNat < b.toNat := by omega
            have h2 : ¬ b.toNat < a.toNat := by omega
            have h3 : ¬ b.toNat < c.toNat := by omega
            have h4 : ¬ c.toNat < b.toNat := by omega
            have h5 : ¬ a.toNat < c.toNat := by omega
            have h6 : ¬ c.toNat < a.toNat := by omega
            simp only [charsLtB, if_neg h1, if_neg h2] at h12
            simp only [charsLtB, if_neg h3, if_neg h4] at h23
            simp only [charsLtB, if_neg h5, if_neg h6]
            exact ih bs cs h12 h23
          · have h3 : ¬ b.toNat < c.toNat := by omega
            simp [charsLtB, h3, hbc] at h23
        · have h1 : ¬ a.toNat < b.toNat := by omega
          simp [charsLtB, h1, hab] at h12
  
lemma charsLtB_total :
    ∀ l1 l2, charsLtB l1 l2 = false → l1 ≠ l2 → charsLtB l2 l1 = true := by
  intro l1
  induction l1 with
  | nil =>
    intro l2 h hne
    cases l2 with
    | nil => exact absurd rfl hne
    | cons b bs => simp [charsLtB] at h
  | cons a as ih =>
    intro l2 h hne
    cases l2 with
    | nil => rfl
    | cons b bs =>
      rcases Nat.lt_trichotomy a.toNat b.toNat with hab | hab | hab
      · simp [charsLtB, hab] at h
      · have hab' : a = b := charToNat_inj hab
        subst hab'
        have h1 : ¬ a.toNat < a.toNat := by omega
        simp only [charsLtB, if_neg h1] at h ⊢
        have hne' : as ≠ bs := by
          intro hcontra
          exact hne (by rw [hcontra])
        exact ih bs h hne'
      · simp [charsLtB, hab]

lemma strLtLaws : LtLaws strLt := by
  constructor
  · intro s
    unfold strLt
    simp [charsLtB_irrefl]
  · intro a b c h1 h2
    exact charsLtB_trans _ _ _ h1 h2
  · intro a b h hne
    apply charsLtB_total
    · exact Bool.eq_false_iff.2 h
    · intro hdata
      exact hne (String.ext hdata)

lemma natLtLaws : LtLaws (fun a b : Nat => a < b) := by
  refine ⟨Nat.lt_irrefl, Nat.lt_trans, ?_⟩
  intro a b h hne
  omega

lemma pairLtLaws {α β : Type} {la : α → α → Prop} {lb : β → β → Prop}
    (A : LtLaws la) (B : LtLaws lb) : LtLaws (pairLt la lb) := by
  constructor
  · rintro ⟨x, y⟩ (h | ⟨-, h⟩)
    · exact A.irrefl x h
    · exact B.irrefl y h
  · rintro ⟨a1, a2⟩ ⟨b1, b2⟩ ⟨c1, c2⟩ (h1 | ⟨he1, h1⟩) (h2 | ⟨he2, h2⟩)
    · exact Or.inl (A.trans h1 h2)
    · exact Or.inl (he2 ▸ h1)
    · exact Or.inl (he1 ▸ h2)
    · exact Or.inr ⟨he1.trans he2, B.trans h1 h2⟩
  · rintro ⟨a1, a2⟩ ⟨b1, b2⟩ h hne
    by_cases he : a1 = b1
    · subst he
      have h2 : ¬ lb a2 b2 := fun hl => h (Or.inr ⟨rfl, hl⟩)
      have hne2 : a2 ≠ b2 := fun hcontra => hne (by rw [hcontra])
      exact Or.inr ⟨rfl, B.total h2 hne2⟩
    · have h1 : ¬ la a1 b1 := fun hl => h (Or.inl hl)
      exact Or.inl (A.total h1 he)

lemma mem_insortKey {κ : Type} [DecidableEq κ] (lt : κ → κ → Prop) [DecidableRel lt]
    (x z : κ) : ∀ l, z ∈ insortKey lt x l ↔ z = x ∨ z ∈ l := by
  intro l
  induction l with
  | nil => simp [insortKey]
  | cons y l ih =>
    simp only [insortKey]
    split
    · simp [List.mem_cons]
    · split
      · rename_i hxy
        subst hxy
        simp only [List.mem_cons]
        tauto
      · simp only [List.mem_cons, ih]
        tauto

lemma pairwise_insortKey {κ : Type} [DecidableEq κ] {lt : κ → κ → Prop} [DecidableRel lt]
    (L : LtLaws lt) (x : κ) : ∀ {l}, l.Pairwise lt → (insortKey lt x l).Pairwise lt := by
  intro l
  induction l with
  | nil =>
    intro _
    simp [insortKey]
  | cons y l ih =>
    intro hp
    rcases List.pairwise_cons.1 hp with ⟨hy, hl⟩
    simp only [insortKey]
    split
    · rename_i hxy
      refine List.pairwise_cons.2 ⟨?_, hp⟩
      intro z hz
      rcases List.mem_cons.1 hz with rfl | hz
      · exact hxy
      · exact L.trans hxy (hy z hz)
    · split
      · exact hp
      · rename_i hxy hne
        refine List.pairwise_cons.2 ⟨?_, ih hl⟩
        intro z hz
        rcases (mem_insortKey lt x z l).1 hz with rfl | hz
        · exact L.total hxy hne
        · exact hy z hz

lemma pairwise_foldl_insortKey {κ : Type} [DecidableEq κ] {lt : κ → κ → Prop} [DecidableRel lt]
    (L : LtLaws lt) :
    ∀ (l acc : List κ), acc.Pairwise lt →
      (l.foldl (fun acc x => insortKey lt x acc) acc).Pairwise lt := by
  intro l
  induction l with
  | nil =>
    intro acc h
    exact h
  | cons x l ih =>
    intro acc h
    exact ih _ (pairwise_insortKey L x h)

lemma pairwise_sortDedup {κ : Type} [DecidableEq κ] {lt : κ → κ → Prop} [DecidableRel lt]
    (L : LtLaws lt) (l : List κ) : (sortDedup lt l).Pairwise lt :=
  pairwise_foldl_insortKey L l [] (List.Pairwise.nil)

lemma mem_foldl_insortKey {κ : Type} [DecidableEq κ] (lt : κ → κ → Prop) [DecidableRel lt] :
    ∀ (l acc : List κ) (z : κ),
      z ∈ l.foldl (fun acc x => insortKey lt x acc) acc ↔ z ∈ acc ∨ z ∈ l := by
  intro l
  induction l with
  | nil =>
    intro acc z
    simp
  | cons x l ih =>
    intro acc z
    simp only [List.foldl_cons]
    rw [ih (insortKey lt x acc) z]
    rw [mem_insortKey]
    simp [List.mem_cons]
    tauto

lemma mem_sortDedup {κ : Type} [DecidableEq κ] (lt : κ → κ → Prop) [DecidableRel lt]
    (l : List κ) (z : κ) : z ∈ sortDedup lt l ↔ z ∈ l := by
  unfold sortDedup
  rw [mem_foldl_insortKey]
  simp

lemma nodup_of_pairwise {κ : Type} {lt : κ → κ → Prop} (L : LtLaws lt) :
    ∀ {l : List κ}, l.Pairwise lt → l.Nodup := by
  intro l h
  refine h.imp ?_
  intro a b hab
  intro heq
  exact L.irrefl b (heq ▸ hab)

lemma groupSum_mem {κ : Type} [DecidableEq κ] {lt : κ → κ → Prop} [DecidableRel lt]
    {key : Record → κ} {l : List Record} {p : κ × ℚ} (hp : p ∈ groupSum lt key l) :
    (∃ r ∈ l, key r = p.1) ∧
      p.2 = sumSales (l.filter fun r => decide (key r = p.1)) := by
  rcases List.mem_map.1 hp with ⟨k, hk, rfl⟩
  have hk' : k ∈ l.map key := (mem_sortDedup lt _ k).1 hk
  rcases List.mem_map.1 hk' with ⟨r, hr, rfl⟩
  exact ⟨⟨r, hr, rfl⟩, rfl⟩

lemma groupSum_complete {κ : Type} [DecidableEq κ] {lt : κ → κ → Prop} [DecidableRel lt]
    {key : Record → κ} {l : List Record} {r : Record} (hr : r ∈ l) :
    ∃ p ∈ groupSum lt key l, p.1 = key r := by
  have hk : key r ∈ sortDedup lt (l.map key) :=
    (mem_sortDedup lt _ (key r)).2 (List.mem_map_of_mem key hr)
  exact ⟨(key r, sumSales (l.filter fun x => decide (key x = key r))),
    List.mem_map_of_mem _ hk, rfl⟩

lemma groupSum_sorted {κ : Type} [DecidableEq κ] {lt : κ → κ → Prop} [DecidableRel lt]
    (L : LtLaws lt) (key : Record → κ) (l : List Record) :
    (groupSum lt key l).Pairwise fun p q => lt p.1 q.1 := by
  refine List.Pairwise.map _ ?_ (pairwise_sortDedup L (l.map key))
  intro a b hab
  exact hab

lemma sumSales_filter_partition (p : Record → Bool) (l : List Record) :
    sumSales (l.filter p) + sumSales (l.filter fun r => !(p r)) = sumSales l := by
  induction l with
  | nil => simp [sumSales]
  | cons r l ih =>
    by_cases h : p r
    · simp [List.filter_cons, h, sumSales] at ih ⊢
      linarith [ih]
    · simp [List.filter_cons, h, sumSales] at ih ⊢
      linarith [ih]

lemma sum_over_keys {κ : Type} [DecidableEq κ] (key : Record → κ) :
    ∀ (ks : List κ) (l : List Record), ks.Nodup → (∀ r ∈ l, key r ∈ ks) →
      ((ks.map fun k => sumSales (l.filter fun r => decide (key r = k))).sum = sumSales l) := by
  intro ks
  induction ks with
  | nil =>
    intro l _ hcov
    have hl : l = [] := List.eq_nil_iff_forall_not_mem.2 fun r hr => by simpa using hcov r hr
    subst hl
    simp [sumSales]
  | cons k ks ih =>
    intro l hnd hcov
    have hknot : k ∉ ks := (List.nodup_cons.1 hnd).1
    have hks : ks.Nodup := (List.nodup_cons.1 hnd).2
    have hcov' : ∀ r ∈ l.filter fun r => !(decide (key r = k)), key r ∈ ks := by
      intro r hr
      rcases List.mem_filter.1 hr with ⟨hrl, hneq⟩
      have hne : key r ≠ k := by simpa using hneq
      rcases List.mem_cons.1 (hcov r hrl) with h | h
      · exact absurd h hne
      · exact h
    have hterms : (ks.map fun k' => sumSales (l.filter fun r => decide (key r = k'))).sum
        = (ks.map fun k' =>
            sumSales ((l.filter fun r => !(decide (key r = k))).filter
              fun r => decide (key r = k'))).sum := by
      congr 1
      apply List.map_congr_left
      intro k' hk'
      have hkk : k' ≠ k := fun hcontra => hknot (hcontra ▸ hk')
      congr 1
      rw [List.filter_filter]
      apply List.filter_congr
      intro r _
      by_cases h : key r = k'
      · simp [h, hkk]
      · simp [h]
    rw [List.map_cons, List.sum_cons, hterms, ih _ hks hcov']
    exact sumSales_filter_partition _ l

lemma sum_groupSum {κ : Type} [DecidableEq κ] {lt : κ → κ → Prop} [DecidableRel lt]
    (L : LtLaws lt) (key : Record → κ) (l : List Record) :
    ((groupSum lt key l).map Prod.snd).sum = sumSales l := by
  unfold groupSum
  rw [List.map_map]
  have hnd : (sortDedup lt (l.map key)).Nodup :=
    nodup_of_pairwise L (pairwise_sortDedup L _)
  have hcov : ∀ r ∈ l, key r ∈ sortDedup lt (l.map key) := fun r hr =>
    (mem_sortDedup lt _ (key r)).2 (List.mem_map_of_mem key hr)
  exact sum_over_keys key _ l hnd hcov

/-- Ascending order by summed sales with ties in ascending key order: the
shape of `sortByVal`'s output when its input keys are strictly ascending. -/
def valKeyAsc (a b : String × ℚ) : Prop := a.2 < b.2 ∨ (a.2 = b.2 ∧ strLt a.1 b.1)

/-- Descending order by summed sales with ties in descending key order: the
shape of the `sort_values(ascending=False)` result. -/
def valKeyDesc (a b : String × ℚ) : Prop := b.2 < a.2 ∨ (a.2 = b.2 ∧ strLt b.1 a.1)

lemma mem_insortVal (x z : String × ℚ) :
    ∀ l, z ∈ insortVal x l ↔ z = x ∨ z ∈ l := by
  intro l
  induction l with
  | nil => simp [insortVal]
  | cons y l ih =>
    simp only [insortVal]
    split
    · simp [List.mem_cons]
    · simp only [List.mem_cons, ih]
      tauto

lemma pairwise_insortVal (x : String × ℚ) :
    ∀ {acc}, acc.Pairwise valKeyAsc → (∀ y ∈ acc, y.2 = x.2 → strLt y.1 x.1) →
      (insortVal x acc).Pairwise valKeyAsc := by
  intro acc
  induction acc with
  | nil =>
    intro _ _
    simp [insortVal]
  | cons y l ih =>
    intro hacc hk
    rcases List.pairwise_cons.1 hacc with ⟨hy, hl⟩
    simp only [insortVal]
    split
    · rename_i hlt
      refine List.pairwise_cons.2 ⟨?_, hacc⟩
      intro z hz
      rcases List.mem_cons.1 hz with rfl | hz
      · exact Or.inl hlt
      · rcases hy z hz with h | ⟨he, _⟩
        · exact Or.inl (hlt.trans h)
        · exact Or.inl (he ▸ hlt)
    · rename_i hnlt
      refine List.pairwise_cons.2 ⟨?_, ih hl ?_⟩
      · intro z hz
        rcases (mem_insortVal x z l).1 hz with rfl | hz
        · rcases lt_or_eq_of_le (le_of_not_lt hnlt) with h | h
          · exact Or.inl h
          · exact Or.inr ⟨h, hk y (List.mem_cons_self y l) h⟩
        · exact hy z hz
      · intro z hz hze
        exact hk z (List.mem_cons_of_mem y hz) hze

lemma mem_foldl_insortVal :
    ∀ (inp acc : List (String × ℚ)) (z : String × ℚ),
      z ∈ inp.foldl (fun a x => insortVal x a) acc ↔ z ∈ acc ∨ z ∈ inp := by
  intro inp
  induction inp with
  | nil =>
    intro acc z
    simp
  | cons x rest ih =>
    intro acc z
    simp only [List.foldl_cons]
    rw [ih (insortVal x acc) z, mem_insortVal]
    simp [List.mem_cons]
    tauto

lemma mem_sortByVal (l : List (String × ℚ)) (z : String × ℚ) :
    z ∈ sortByVal l ↔ z ∈ l := by
  unfold sortByVal
  rw [mem_foldl_insortVal]
  simp

lemma pairwise_foldl_insortVal :
    ∀ (inp acc : List (String × ℚ)), acc.Pairwise valKeyAsc →
      (∀ y ∈ acc, ∀ x ∈ inp, strLt y.1 x.1) →
      inp.Pairwise (fun p q => strLt p.1 q.1) →
      (inp.foldl (fun a x => insortVal x a) acc).Pairwise valKeyAsc := by
  intro inp
  induction inp with
  | nil =>
    intro acc hacc _ _
    exact hacc
  | cons x rest ih =>
    intro acc hacc hcross hinp
    rcases List.pairwise_cons.1 hinp with ⟨hx, hrest⟩
    simp only [List.foldl_cons]
    apply ih (insortVal x acc)
    · apply pairwise_insortVal x hacc
      intro y hy _
      exact hcross y hy x (List.mem_cons_self x rest)
    · intro y hy z hz
      rcases (mem_insortVal x y acc).1 hy with rfl | hy
      · exact hx z hz
      · exact hcross y hy z (List.mem_cons_of_mem x hz)
    · exact hrest

lemma pairwise_sortByVal {l : List (String × ℚ)}
    (hl : l.Pairwise fun p q => strLt p.1 q.1) : (sortByVal l).Pairwise valKeyAsc := by
  unfold sortByVal
  apply pairwise_foldl_insortVal l [] List.Pairwise.nil _ hl
  intro y hy
  simp at hy

lemma top_subcategories_pairwise (l : List Record) (n : Nat) :
    (top_subcategories l n).Pairwise valKeyDesc := by
  unfold top_subcategories
  apply List.Pairwise.sublist (List.take_sublist _ _)
  rw [List.pairwise_reverse]
  have hs := pairwise_sortByVal (groupSum_sorted strLtLaws Record.sub_category l)
  refine hs.imp ?_
  intro a b hab
  rcases hab with h | ⟨he, hk⟩
  · exact Or.inl h
  · exact Or.inr ⟨he.symm, hk⟩

lemma top_subcategories_mem {l : List Record} {n : Nat} {p : String × ℚ}
    (hp : p ∈ top_subcategories l n) : p ∈ groupSum strLt Record.sub_category l := by
  unfold top_subcategories at hp
  have h1 := (List.take_sublist n _).subset hp
  rw [List.mem_reverse] at h1
  exact (mem_sortByVal _ p).1 h1

lemma getD_mem {α : Type} : ∀ (l : List α) (i : Nat) (d : α), i < l.length → l.getD i d ∈ l := by
  intro l
  induction l with
  | nil =>
    intro i d h
    exact absurd h (Nat.not_lt_zero i)
  | cons a l ih =>
    intro i d h
    cases i with
    | zero => exact List.mem_cons_self a l
    | succ i =>
      have h' : i < l.length := by simpa using h
      rw [List.getD_cons_succ]
      exact List.mem_cons_of_mem a (ih i d h')

/-- The per-record well-formedness facts guaranteed by one loop iteration of
`load_sample_data`: domain membership of the drawn fields, the clamp lower
bound on sales, the quantity range, and the profit/sales relation that
follows from computing profit from the unclamped draw (lines 61-72 of
`src/app.py`). -/
def RecordOK (r : Record) : Prop :=
  r.category ∈ categories ∧
  r.sub_category ∈ subcategories r.category ∧
  r.region ∈ regions ∧
  r.order_date < numDates ∧
  (50:ℚ) ≤ r.sales ∧
  1 ≤ r.quantity ∧ r.quantity ≤ 9 ∧
  r.profit ≤ 3/10 * r.sales ∧
  (r.sales = 50 ∨ 1/10 * r.sales ≤ r.profit)

lemma record_fields_ok (di ci si ri qi : Nat) (s u : ℚ)
    (hdi : di < numDates) (hci : ci < categories.length)
    (hsi : si < (subcategories (categories.getD ci "")).length)
    (hri : ri < regions.length) (hqi : qi < 9)
    (hu1 : (1:ℚ)/10 ≤ u) (hu2 : u ≤ 3/10) :
    RecordOK ⟨di, categories.getD ci "", (subcategories (categories.getD ci "")).getD si "",
      regions.getD ri "", max s 50, s * u, 1 + qi⟩ := by
  refine ⟨getD_mem _ _ _ hci, getD_mem _ _ _ hsi, getD_mem _ _ _ hri, hdi,
    le_max_right s 50, Nat.le_add_right 1 qi, ?_, ?_, ?_⟩
  · show 1 + qi ≤ 9
    omega
  · rcases le_or_lt 0 s with hs | hs
    · calc s * u ≤ s * (3/10) := mul_le_mul_of_nonneg_left hu2 hs
        _ = (3/10) * s := mul_comm s (3/10)
        _ ≤ 3/10 * max s 50 := mul_le_mul_of_nonneg_left (le_max_left s 50) (by norm_num)
    · have h0 : s * u ≤ 0 := mul_nonpos_iff.2 (Or.inr ⟨hs.le, by linarith⟩)
      have h50 : (50:ℚ) ≤ max s 50 := le_max_right s 50
      linarith
  · rcases le_total s 50 with hs | hs
    · exact Or.inl (max_eq_right hs)
    · right
      rw [max_eq_left hs]
      have hs0 : (0:ℚ) ≤ s := by linarith
      calc 1/10 * s = s * (1/10) := mul_comm (1/10) s
        _ ≤ s * u := mul_le_mul_of_nonneg_left hu1 hs0

lemma subcategories_len_pos {i : Nat} (h : i < categories.length) :
    0 < (subcategories (categories.getD i "")).length := by
  have hmem : categories.getD i "" ∈ categories := getD_mem _ _ _ h
  have hall : ∀ c ∈ categories, 0 < (subcategories c).length := by decide
  exact hall _ hmem

lemma genRecord_spec {σ : Type} (R : RNG σ) (st : σ) : RecordOK (genRecord R st).1 := by
  unfold genRecord
  exact record_fields_ok _ _ _ _ _ _ _
    (R.randBelow_lt _ _ (by decide))
    (R.randBelow_lt _ _ (by decide))
    (R.randBelow_lt _ _ (subcategories_len_pos (R.randBelow_lt _ _ (by decide))))
    (R.randBelow_lt _ _ (by decide))
    (R.randBelow_lt _ _ (by decide))
    (R.uniform_mem _ _ _ (by norm_num)).1
    (R.uniform_mem _ _ _ (by norm_num)).2

lemma genList_length {σ : Type} (R : RNG σ) :
    ∀ (n : Nat) (st : σ), (genList R n st).length = n := by
  intro n
  induction n with
  | zero =>
    intro st
    rfl
  | succ n ih =>
    intro st
    simp [genList, ih]

lemma genList_mem {σ : Type} (R : RNG σ) :
    ∀ (n : Nat) (st : σ) (r : Record), r ∈ genList R n st → ∃ st', r = (genRecord R st').1 := by
  intro n
  induction n with
  | zero =>
    intro st r h
    simp [genList] at h
  | succ n ih =>
    intro st r h
    simp only [genList] at h
    rcases List.mem_cons.1 h with rfl | h
    · exact ⟨st, rfl⟩
    · exact ih _ r h

lemma load_sample_data_ok {σ : Type} (R : RNG σ) (seed : Nat) {r : Record}
    (hr : r ∈ load_sample_data R seed) : RecordOK r := by
  rcases genList_mem R 5000 _ r hr with ⟨st', rfl⟩
  exact genRecord_spec R st'

/-- A degenerate but legal pseudorandom generator: every index draw is 0,
every normal draw returns its mean, every uniform draw returns its lower
bound.  Used to instantiate theorems about arbitrary generators. -/
def trivialRNG : RNG Unit where
  seedInit _ := ()
  randBelow _ _ := (0, ())
  normal _ mu _ := (mu, ())
  uniform _ a _ := (a, ())
  randBelow_lt := fun _ _ h => h
  uniform_mem := fun _ a _ h => ⟨le_refl a, h⟩

/-- A legal pseudorandom generator whose normal draws all return 0, so every
generated record has its sales value clamped up to 50 (line 70 of
`src/app.py`) while profit was computed from the draw 0. -/
def lowRNG : RNG Unit where
  seedInit _ := ()
  randBelow _ _ := (0, ())
  normal _ _ _ := (0, ())
  uniform _ a _ := (a, ())
  randBelow_lt := fun _ _ h => h
  uniform_mem := fun _ a _ h => ⟨le_refl a, h⟩

/-- The first record generated by `trivialRNG`. -/
def rec0 : Record := (genRecord trivialRNG ()).1

lemma rec0_mem : rec0 ∈ load_sample_data trivialRNG 42 := by
  have h : load_sample_data trivialRNG 42
      = rec0 :: genList trivialRNG 4999 ((genRecord trivialRNG ()).2) := rfl
  rw [h]
  exact List.mem_cons_self _ _

/-- The first record generated by `lowRNG`. -/
def lowRec0 : Record := (genRecord lowRNG ()).1

lemma lowRec0_mem : lowRec0 ∈ load_sample_data lowRNG 42 := by
  have h : load_sample_data lowRNG 42
      = lowRec0 :: genList lowRNG 4999 ((genRecord lowRNG ()).2) := rfl
  rw [h]
  exact List.mem_cons_self _ _

/-- C5: calling the generator twice with the same seed yields identical record
sequences — the same values in the same order.  In this embedding the property
holds by construction: `load_sample_data` is a pure function of the
pseudorandom algorithm and the seed (the numpy global state is re-seeded at
line 40 on every run), so equal seeds give equal draw sequences. -/
theorem C5_generator_deterministic {σ : Type} (R : RNG σ) (seed1 seed2 : Nat)
    (h : seed1 = seed2) : load_sample_data R seed1 = load_sample_data R seed2 := by
  rw [h]

theorem C5_generator_deterministic_witness :
    load_sample_data trivialRNG 42 = load_sample_data trivialRNG 42 :=
  C5_generator_deterministic trivialRNG 42 42 rfl

/-- C6: for any generator and any seed, `load_sample_data` returns exactly
5000 records (the `for _ in range(5000)` loop at line 53). -/
theorem C6_generator_cardinality {σ : Type} (R : RNG σ) (seed : Nat) :
    (load_sample_data R seed).length = 5000 :=
  genList_length R 5000 (R.seedInit seed)

/-- C7: every generated record satisfies the domain-integrity invariant: its
sub-category belongs to the fixed 3-element subset of its category, its sales
is at least 50, its quantity lies in [1, 9], and its order date lies in the
1095-day range [2021-01-01, 2023-12-31] (equivalently its derived year is
between 2021 and 2023). -/
theorem C7_domain_integrity {σ : Type} (R : RNG σ) (seed : Nat) (r : Record)
    (hr : r ∈ load_sample_data R seed) :
    r.sub_category ∈ subcategories r.category ∧
    (50:ℚ) ≤ r.sales ∧
    (1 ≤ r.quantity ∧ r.quantity ≤ 9) ∧
    (r.order_date < numDates ∧ 2021 ≤ yearOf r.order_date ∧ yearOf r.order_date ≤ 2023) := by
  rcases load_sample_data_ok R seed hr with ⟨_, hsub, _, hd, hsal, hq1, hq2, _, _⟩
  refine ⟨hsub, hsal, ⟨hq1, hq2⟩, hd, ?_, ?_⟩
  · unfold yearOf
    omega
  · unfold yearOf
    unfold numDates at hd
    omega

theorem C7_domain_integrity_witness :
    rec0.sub_category ∈ subcategories rec0.category ∧
    (50:ℚ) ≤ rec0.sales ∧
    (1 ≤ rec0.quantity ∧ rec0.quantity ≤ 9) ∧
    (rec0.order_date < numDates ∧ 2021 ≤ yearOf rec0.order_date ∧ yearOf rec0.order_date ≤ 2023) :=
  C7_domain_integrity trivialRNG 42 rec0 rec0_mem

/-- C10: every generated record satisfies `profit ≤ 0.3 * sales`: profit is
the pre-clamp normal draw times a factor in [0.1, 0.3] (line 62), and the
stored sales `max(draw, 50)` (line 70) is never smaller than the draw, so the
upper bound survives the clamp. -/
theorem C10_profit_upper_bound {σ : Type} (R : RNG σ) (seed : Nat) (r : Record)
    (hr : r ∈ load_sample_data R seed) : r.profit ≤ 3/10 * r.sales :=
  (load_sample_data_ok R seed hr).2.2.2.2.2.2.2.1

theorem C10_profit_upper_bound_witness : rec0.profit ≤ 3/10 * rec0.sales :=
  C10_profit_upper_bound trivialRNG 42 rec0 rec0_mem

/-- C1 counterexample: a generated record whose normal draw was 0 (a value a
legal normal sampler may return) has sales clamped to 50 but profit 0 times
the factor, so `0.1 * sales ≤ profit` fails: the claimed lower bound does not
hold for floor-clamped records. -/
theorem C1_counterexample :
    lowRec0 ∈ load_sample_data lowRNG 42 ∧
    ¬ (1/10 * lowRec0.sales ≤ lowRec0.profit) := by
  refine ⟨lowRec0_mem, ?_⟩
  show ¬ (1/10 * lowRec0.sales ≤ lowRec0.profit)
  have hsal : lowRec0.sales = 50 := by
    show max (0:ℚ) 50 = 50
    exact max_eq_right (by norm_num)
  have hpro : lowRec0.profit = 0 := by
    show (0:ℚ) * (1/10) = 0
    norm_num
  rw [hsal, hpro]
  norm_num

/-- C1 (amended): every generated record satisfies `profit ≤ 0.3 * sales`,
and the lower bound `0.1 * sales ≤ profit` holds for every record that was
not floor-clamped (a record can only violate the lower bound when its stored
sales is exactly the clamp value 50, since profit is computed from the
pre-clamp draw at line 62). -/
theorem C1_profit_fraction_amended {σ : Type} (R : RNG σ) (seed : Nat) (r : Record)
    (hr : r ∈ load_sample_data R seed) :
    r.profit ≤ 3/10 * r.sales ∧ (r.sales = 50 ∨ 1/10 * r.sales ≤ r.profit) :=
  ⟨(load_sample_data_ok R seed hr).2.2.2.2.2.2.2.1,
   (load_sample_data_ok R seed hr).2.2.2.2.2.2.2.2⟩

theorem C1_profit_fraction_amended_witness :
    rec0.profit ≤ 3/10 * rec0.sales ∧ (rec0.sales = 50 ∨ 1/10 * rec0.sales ≤ rec0.profit) :=
  C1_profit_fraction_amended trivialRNG 42 rec0 rec0_mem

/-- C8: the grouped category totals conserve the overall sales sum: adding the
values of `category_totals` gives exactly the sum of sales over all input
records (pandas computes each group total as the sum of its rows, and the
groups partition the rows).  Over `ℚ` the identity is exact. -/
theorem C8_sum_conservation (l : List Record) :
    ((category_totals l).map Prod.snd).sum = sumSales l :=
  sum_groupSum strLtLaws Record.category l

/-- A hand-built record used to instantiate universally quantified theorems. -/
def exRec1 : Record := ⟨0, "Technology", "Phones", "East", 100, 10, 1⟩

/-- C9: `monthly_category_sales` groups the records by (year-month, category)
and sums sales within each group (each output row's total is the sum over the
matching records, and every record contributes to some row), and the rows are
ordered by year-month ascending (year, then month), then by category within
equal year-months. -/
theorem C9_monthly_grouping (l : List Record) :
    (∀ p ∈ monthly_category_sales l,
       (∃ r ∈ l, mkeyMonthly r = p.1) ∧
       p.2 = sumSales (l.filter fun r => decide (mkeyMonthly r = p.1))) ∧
    (∀ r ∈ l, ∃ p ∈ monthly_category_sales l, p.1 = mkeyMonthly r) ∧
    (monthly_category_sales l).Pairwise
      (fun p q =>
        (p.1.1.1 < q.1.1.1 ∨ (p.1.1.1 = q.1.1.1 ∧ p.1.1.2 < q.1.1.2)) ∨
        (p.1.1 = q.1.1 ∧ strLt p.1.2 q.1.2)) := by
  refine ⟨?_, ?_, ?_⟩
  · intro p hp
    exact groupSum_mem hp
  · intro r hr
    exact groupSum_complete hr
  · exact groupSum_sorted (pairLtLaws (pairLtLaws natLtLaws natLtLaws) strLtLaws) mkeyMonthly l

theorem C9_monthly_grouping_witness :
    ∃ p ∈ monthly_category_sales [exRec1], p.1 = mkeyMonthly exRec1 :=
  (C9_monthly_grouping [exRec1]).2.1 exRec1 (List.mem_cons_self _ _)

/-- C4 (amended): `top_subcategories l 5` returns at most 5 entries, each
entry is an input sub-category paired with its total sales, and the list is
sorted descending by total sales with ties broken by sub-category in
DESCENDING lexicographic order — not by first-encounter order: pandas'
group-by lists the keys alphabetically and `sort_values(ascending=False)`
reverses a stable ascending sort, so equal totals come out in reverse
alphabetical order. -/
theorem C4_top5_amended (l : List Record) :
    (top_subcategories l 5).length ≤ 5 ∧
    (top_subcategories l 5).Pairwise valKeyDesc ∧
    (∀ p ∈ top_subcategories l 5,
      (∃ r ∈ l, r.sub_category = p.1) ∧
      p.2 = sumSales (l.filter fun r => decide (r.sub_category = p.1))) := by
  refine ⟨List.length_take_le _ _, top_subcategories_pairwise l 5, ?_⟩
  intro p hp
  exact groupSum_mem (top_subcategories_mem hp)

/-- A record with sub-category Art, encountered first in the counterexample. -/
def artRec : Record := ⟨0, "Office Supplies", "Art", "Central", 100, 10, 1⟩

/-- A record with sub-category Binders and the same sales total as `artRec`. -/
def bindersRec : Record := ⟨0, "Office Supplies", "Binders", "Central", 100, 10, 1⟩

lemma groupSum_sub_ex :
    groupSum strLt Record.sub_category [artRec, bindersRec]
      = [("Art", (100:ℚ)), ("Binders", (100:ℚ))] := by
  have hkeys : sortDedup strLt ([artRec, bindersRec].map Record.sub_category)
      = ["Art", "Binders"] := by decide
  unfold groupSum
  rw [hkeys]
  simp only [List.map_cons, List.map_nil]
  have h1 : ([artRec, bindersRec].filter fun r => decide (Record.sub_category r = "Art"))
      = [artRec] := by decide
  have h2 : ([artRec, bindersRec].filter fun r => decide (Record.sub_category r = "Binders"))
      = [bindersRec] := by decide
  rw [h1, h2]
  simp [sumSales, artRec, bindersRec]

lemma top_ex_eval :
    top_subcategories [artRec, bindersRec] 5 = [("Binders", (100:ℚ)), ("Art", 100)] := by
  unfold top_subcategories
  rw [groupSum_sub_ex]
  decide

/-- C4 counterexample: two sub-categories with equal totals, Art encountered
before Binders.  The claimed encounter-order tie-break predicts
[(Art, 100), (Binders, 100)], but the code returns [(Binders, 100),
(Art, 100)] — ties come out in reverse alphabetical order. -/
theorem C4_counterexample :
    top_subcategories [artRec, bindersRec] 5 = [("Binders", (100:ℚ)), ("Art", 100)] ∧
    top_subcategories [artRec, bindersRec] 5 ≠ [("Art", (100:ℚ)), ("Binders", 100)] := by
  refine ⟨top_ex_eval, ?_⟩
  rw [top_ex_eval]
  decide

theorem C4_top5_amended_witness :
    ∃ r ∈ [artRec, bindersRec], r.sub_category = "Binders" :=
  (((C4_top5_amended [artRec, bindersRec]).2.2 ("Binders", (100:ℚ))
    (by rw [top_ex_eval]; exact List.mem_cons_self _ _))).1

/-- C3 (amended): on an empty record sequence all four aggregations return
empty results; in particular `region_category_matrix` returns an EMPTY
matrix (no region rows at all), not a zero-filled matrix over the known
regions and categories. -/
theorem C3_empty_input_amended :
    monthly_category_sales [] = [] ∧ category_totals [] = [] ∧
    top_subcategories [] 5 = [] ∧ region_category_matrix [] = [] :=
  ⟨rfl, rfl, rfl, rfl⟩

/-- C3 counterexample: on empty input the matrix has no row for the known
region Central (nor any other), contradicting the claim that all known
regions and categories appear as keys with every cell 0. -/
theorem C3_counterexample :
    region_category_matrix ([] : List Record) = [] ∧
    ¬ ∃ row ∈ region_category_matrix ([] : List Record), row.1 = "Central" := by
  refine ⟨rfl, ?_⟩
  rintro ⟨row, hrow, -⟩
  rw [show region_category_matrix ([] : List Record) = [] from rfl] at hrow
  exact List.not_mem_nil row hrow

lemma filterView_nil_years (cs rs : List String) (l : List Record) :
    filterView [] cs rs l = [] := by
  unfold filterView
  rw [List.filter_eq_nil_iff]
  intro r _
  simp

/-- C2 counterexample: with the base dataset generated by `trivialRNG`, the
pair (Central, Technology) is observed in the base data, but a filtered view
selecting no years is empty and its matrix has no Central row at all:
`unstack(fill_value=0)` is dense only over the regions and categories present
in the FILTERED data, not over the full base dataset. -/
theorem C2_counterexample :
    (∃ rec ∈ load_sample_data trivialRNG 42,
        rec.region = "Central" ∧ rec.category = "Technology") ∧
    ¬ ∃ row ∈ region_category_matrix
        (filterView [] categories regions (load_sample_data trivialRNG 42)),
        row.1 = "Central" := by
  constructor
  · exact ⟨rec0, rec0_mem, rfl, rfl⟩
  · rw [filterView_nil_years]
    rintro ⟨row, hrow, -⟩
    rw [show region_category_matrix ([] : List Record) = [] from rfl] at hrow
    exact List.not_mem_nil row hrow

/-- C2 (amended): the matrix is dense over the filtered view itself: for every
region and category that each occur somewhere in the input record sequence,
the matrix has a row for the region containing a cell for the category whose
value is the summed sales of the matching records — 0 when the combination
has no matching record.  Regions or categories absent from the input are
omitted entirely (so density over the full base dataset holds only when every
base region and category survives the filter). -/
theorem C2_matrix_density_amended (l : List Record) (rg c : String)
    (hrg : ∃ rec ∈ l, rec.region = rg) (hc : ∃ rec ∈ l, rec.category = c) :
    ∃ row ∈ region_category_matrix l, row.1 = rg ∧
      ∃ cell ∈ row.2, cell.1 = c ∧
        cell.2 = sumSales (l.filter fun r =>
          decide (r.region = rg) && decide (r.category = c)) := by
  rcases hrg with ⟨r1, hr1, hr1e⟩
  rcases hc with ⟨r2, hr2, hr2e⟩
  have hrgmem : rg ∈ sortDedup strLt (l.map Record.region) :=
    (mem_sortDedup strLt _ rg).2 (hr1e ▸ List.mem_map_of_mem Record.region hr1)
  have hcmem : c ∈ sortDedup strLt (l.map Record.category) :=
    (mem_sortDedup strLt _ c).2 (hr2e ▸ List.mem_map_of_mem Record.category hr2)
  unfold region_category_matrix
  exact ⟨_, List.mem_map_of_mem _ hrgmem, rfl, _, List.mem_map_of_mem _ hcmem, rfl, rfl⟩

theorem C2_matrix_density_amended_witness :
    ∃ row ∈ region_category_matrix [exRec1], row.1 = "East" ∧
      ∃ cell ∈ row.2, cell.1 = "Technology" ∧
        cell.2 = sumSales ([exRec1].filter fun r =>
          decide (r.region = "East") && decide (r.category = "Technology")) :=
  C2_matrix_density_amended [exRec1] "East" "Technology"
    ⟨exRec1, List.mem_cons_self _ _, rfl⟩ ⟨exRec1, List.mem_cons_self _ _, rfl⟩
